import Mathlib

/-!
Shallow embedding of the bixss-ca-backend core: the role-based access
resolver (src/middleware/rbac.js, the User and Company mongoose models),
the analysis ingestion consumer (src/services/analysisConsumer.js) and the
time-series comparison classifier (src/controllers/analysis.controller.js).
Mongo ObjectIds are modelled as strings, dates as logical Nat clocks, and
the untyped JS payloads as a small JSON-like tree.
-/

namespace BixssCA

/-- JSON-like values carried in `analysis_data` / `consolidatedData`
(mongoose `Schema.Types.Mixed`). Numbers are modelled as rationals. -/
inductive JsVal where
  | null
  | bool (b : Bool)
  | num (q : ℚ)
  | str (s : String)
  | arr (xs : List JsVal)
  | obj (fields : List (String × JsVal))

/-- JavaScript truthiness of a value (`!x` is its negation). -/
def jsTruthy : JsVal → Bool
  | .null => false
  | .bool b => b
  | .num q => q ≠ 0
  | .str s => s ≠ ""
  | .arr _ => true
  | .obj _ => true

/-- Field access `x?.field` on a JS value: `some` only when `x` is an object with the field. -/
def JsVal.getField : JsVal → String → Option JsVal
  | .obj fields, k => (fields.find? (fun p => p.1 = k)).map (·.2)
  | _, _ => none

/-- Fallback `a || b` where `a` may be `undefined` (`none`): first operand if truthy. -/
def jsOrElse (x : Option JsVal) (dflt : JsVal) : JsVal :=
  match x with
  | some v => if jsTruthy v then v else dflt
  | none => dflt

/-- The four roles of userSchema (`SUPER_ADMIN`, `CA`, `COMPANY_ADMIN`,
`COMPANY_USER`); the spec calls them PLATFORM_ADMIN, PRACTITIONER,
ORG_ADMIN, ORG_MEMBER. -/
inductive Role where
  | SUPER_ADMIN
  | CA
  | COMPANY_ADMIN
  | COMPANY_USER
deriving DecidableEq, Repr

/-- An Account (the `User` mongoose model): id, role, optional primary
company, and the denormalized `invitedCompanies` mirror for CAs. -/
structure User where
  _id : String
  role : Role
  company : Option String
  invitedCompanies : List String
deriving DecidableEq, Repr

/-- One `invitedCAs` entry of companySchema. -/
structure InviteRecord where
  ca : String
  invitedAt : Nat
  invitedBy : Option String
deriving DecidableEq, Repr

/-- An Organization (the `Company` mongoose model): representative,
explicit `companyAdmins` set and the authoritative `invitedCAs` list. -/
structure Company where
  _id : String
  representative : String
  companyAdmins : List String
  invitedCAs : List InviteRecord
deriving DecidableEq, Repr

/-- userSchema.methods.hasCompanyAccess (the spec's `canAccessOrg`):
SUPER_ADMIN always; CA iff the company is in `invitedCompanies`;
company-scoped roles iff `user.company` equals the id (false when unset). -/
def hasCompanyAccess (u : User) (companyId : String) : Bool :=
  if u.role = .SUPER_ADMIN then true
  else if u.role = .CA then
    u.invitedCompanies.any (fun c => c = companyId)
  else if u.role = .COMPANY_ADMIN ∨ u.role = .COMPANY_USER then
    match u.company with
    | some c => c = companyId
    | none => false
  else false

/-- companySchema.methods.isCompanyAdmin: the representative or any
member of `companyAdmins`. -/
def Company.isCompanyAdmin (c : Company) (userId : String) : Bool :=
  c.representative = userId || c.companyAdmins.any (fun a => a = userId)

/-- Outcome of an rbac middleware: HTTP 400 / next() / 404 / 403. -/
inductive RbacResult where
  | missingCompanyId
  | allowed
  | notFound
  | denied
deriving DecidableEq, Repr

/-- The `isCompanyAdmin` middleware of src/middleware/rbac.js (the spec's
`canAdministerOrg`): SUPER_ADMIN passes; a COMPANY_ADMIN whose `company`
matches passes on the fast path; otherwise the Company document is loaded
and its `isCompanyAdmin` method decides. `companies` is the Company
collection backing `Company.findById`. -/
def isCompanyAdminMw (companies : List Company) (u : User)
    (companyId : Option String) : RbacResult :=
  match companyId with
  | none => .missingCompanyId
  | some cid =>
    if u.role = .SUPER_ADMIN then .allowed
    else if u.role = .COMPANY_ADMIN ∧ u.company = some cid then .allowed
    else
      match companies.find? (fun c => c._id = cid) with
      | none => .notFound
      | some company =>
        if company.isCompanyAdmin u._id then .allowed else .denied

/-- Document lifecycle states of documentSchema. -/
inductive DocStatus where
  | uploaded
  | processing
  | analyzed
  | failed
deriving DecidableEq, Repr

/-- A DocumentRecord (the `Document` mongoose model), restricted to the
fields the ingestion consumer reads or writes. -/
structure DocumentRecord where
  _id : String
  filename : String
  originalName : String
  fileType : String
  company : Option String
  status : DocStatus
  analysisId : Option String
deriving DecidableEq, Repr

/-- One entry of analysisSchema's `documents` snapshot list. -/
structure DocSnapshot where
  documentId : String
  filename : String
  fileType : String
deriving DecidableEq, Repr

/-- Analysis lifecycle states of analysisSchema. -/
inductive AnalysisStatus where
  | processing
  | completed
  | failed
deriving DecidableEq, Repr

/-- An AnalysisRecord (the `Analysis` mongoose model). `createdAt` is the
mongoose timestamp, modelled as a logical clock value. -/
structure AnalysisRecord where
  analysisId : String
  company : Option String
  uploadedBy : Option String
  documents : List DocSnapshot
  documentCount : Nat
  totalPagesProcessed : Nat
  consolidatedData : JsVal
  healthAnalysis : JsVal
  status : AnalysisStatus
  jobId : Option String
  error : Option String
  createdAt : Nat

/-- The `metadata` object of the bus payload. -/
structure MessageMeta where
  document_count : Option Nat
  total_pages_processed : Option Nat

/-- A parsed `analysis:completed` bus message; every field may be absent. -/
structure AnalysisMessage where
  job_id : Option String
  analysis_id : Option String
  company_id : Option String
  company_name : Option String
  analysis_data : Option JsVal
  document_ids : Option (List String)
  metadata : Option MessageMeta

/-- The two collections the consumer touches. -/
@[ext]
structure DBState where
  analyses : List AnalysisRecord
  documents : List DocumentRecord

/-- Truthiness of a possibly-absent string field (`!x`): absent and ""
are falsy. -/
def jsTruthyStr : Option String → Bool
  | some s => s ≠ ""
  | none => false

/-- Truthiness of a possibly-absent JSON field (`!x`). -/
def jsTruthyVal : Option JsVal → Bool
  | some v => jsTruthy v
  | none => false

/-- Fallback `x || dflt` for a possibly-absent numeric field: 0 is falsy. -/
def jsNumOrElse (x : Option Nat) (dflt : Nat) : Nat :=
  match x with
  | some n => if n ≠ 0 then n else dflt
  | none => dflt

/-- Behaviour of `findOneAndUpdate` on a hit: rewrite the first matching record only. -/
def updateFirst (p : α → Bool) (f : α → α) : List α → List α
  | [] => []
  | x :: xs => if p x then f x :: xs else x :: updateFirst p f xs

/-- The record produced by an upserting insert before the `$set` fields
are applied: schema defaults (`setDefaultsOnInsert`); required fields
that appear in neither the filter nor the update — `uploadedBy` — are
simply missing (`none`), since `findOneAndUpdate` runs no validators. -/
def freshAnalysisRecord (now : Nat) : AnalysisRecord :=
  { analysisId := "", company := none, uploadedBy := none, documents := [],
    documentCount := 0, totalPagesProcessed := 0, consolidatedData := .obj [],
    healthAnalysis := .obj [], status := .processing, jobId := none,
    error := none, createdAt := now }

/-- The call `Analysis.findOneAndUpdate({analysisId}, upd, {upsert, new})`: update
the first record with that `analysisId`, or append a fresh one with the
update applied. -/
def upsertAnalysis (now : Nat) (aid : String)
    (upd : AnalysisRecord → AnalysisRecord)
    (analyses : List AnalysisRecord) : List AnalysisRecord :=
  if analyses.any (fun a => a.analysisId = aid) then
    updateFirst (fun a => a.analysisId = aid) upd analyses
  else
    analyses ++ [upd (freshAnalysisRecord now)]

/-- The call `Document.find({_id: {$in: ids}})` followed by the snapshot map:
`{documentId, filename: originalName || filename, fileType}` for exactly
the ids that match an existing DocumentRecord. -/
def resolveSnapshots (ids : List String)
    (docs : List DocumentRecord) : List DocSnapshot :=
  (docs.filter (fun d => ids.contains d._id)).map (fun d =>
    { documentId := d._id,
      filename := if d.originalName ≠ "" then d.originalName else d.filename,
      fileType := d.fileType })

/-- The call `Document.updateMany({_id: {$in: ids}}, {status: analyzed,
analysisId})`: only documents already in the store can match. -/
def syncDocuments (ids : List String) (aid : String)
    (docs : List DocumentRecord) : List DocumentRecord :=
  docs.map (fun d =>
    if ids.contains d._id then
      { d with status := .analyzed, analysisId := some aid }
    else d)

/-- Console output of the consumer, reduced to the entries the contract
cares about: the receipt line (which prints `data.analysis_id` as-is,
present or not), the success line, and the catch-all error line. -/
inductive LogEntry where
  | received (analysis_id : Option String)
  | saved (analysis_id : String)
  | error (msg : String)
deriving DecidableEq, Repr

/-- The two `throw new Error(...)` validation guards, in source order. -/
def validateMessage (data : AnalysisMessage) : Option String :=
  if ¬ jsTruthyStr data.analysis_id then some "Missing analysis_id in message"
  else if ¬ jsTruthyVal data.analysis_data then
    some "Missing analysis_data in message"
  else none

/-- The guard `document_ids && document_ids.length > 0`. -/
def hasDocIds (data : AnalysisMessage) : Bool :=
  match data.document_ids with
  | some ids => 0 < ids.length
  | none => false

/-- The `document_ids` list when present and non-empty. -/
def msgDocIds (data : AnalysisMessage) : List String :=
  match data.document_ids with
  | some ids => if 0 < ids.length then ids else []
  | none => []

/-- The `$set` document of the consumer's findOneAndUpdate applied to a
record: every field the upsert owns is fully replaced (analysisId,
company, jobId, documents, documentCount, totalPagesProcessed,
consolidatedData, healthAnalysis, status); `uploadedBy`, `error` and
`createdAt` are untouched. -/
def analysisSet (data : AnalysisMessage) (snaps : List DocSnapshot)
    (r : AnalysisRecord) : AnalysisRecord :=
  { r with
    analysisId := data.analysis_id.getD "",
    company := data.company_id,
    jobId := data.job_id,
    documents := snaps,
    documentCount := jsNumOrElse (data.metadata.bind (·.document_count))
      snaps.length,
    totalPagesProcessed :=
      jsNumOrElse (data.metadata.bind (·.total_pages_processed)) 0,
    consolidatedData := data.analysis_data.getD .null,
    healthAnalysis := jsOrElse
      ((data.analysis_data.getD .null).getField "financial_health_analysis")
      (.obj []),
    status := .completed }

/-- Step 2 of the consumer: the document snapshots resolved against the
current store (empty unless `document_ids` is present and non-empty). -/
def msgSnaps (data : AnalysisMessage) (s : DBState) : List DocSnapshot :=
  if hasDocIds data then resolveSnapshots (msgDocIds data) s.documents else []

/-- Step 3 of the consumer: upsert the AnalysisRecord keyed by
`analysis_id` with the `$set` document built from the message and the
resolved snapshots. -/
def upsertStep (now : Nat) (data : AnalysisMessage) (s : DBState) : DBState :=
  { s with
    analyses := upsertAnalysis now (data.analysis_id.getD "")
      (analysisSet data (msgSnaps data s)) s.analyses }

/-- Step 4 of the consumer: mark the referenced documents analyzed, only
when `document_ids` was present and non-empty. -/
def docSyncStep (data : AnalysisMessage) (s : DBState) : DBState :=
  if hasDocIds data then
    { s with
      documents := syncDocuments (msgDocIds data) (data.analysis_id.getD "")
        s.documents }
  else s

/-- handleAnalysisMessage after a successful JSON.parse: validate, then
upsert, then sync document statuses; any validation failure is caught,
logged, and leaves the store untouched. -/
def handleParsed (now : Nat) (s : DBState)
    (data : AnalysisMessage) : DBState × List LogEntry :=
  match validateMessage data with
  | some err => (s, [.received data.analysis_id, .error err])
  | none =>
    let s2 := docSyncStep data (upsertStep now data s)
    (s2, [.received data.analysis_id, .saved (data.analysis_id.getD "")])

/-- handleAnalysisMessage: `none` models a payload JSON.parse rejects
(also caught and logged). -/
def handleAnalysisMessage (now : Nat) (s : DBState)
    (msg : Option AnalysisMessage) : DBState × List LogEntry :=
  match msg with
  | none => (s, [.error "JSON parse failure"])
  | some data => handleParsed now s data

/-- The store states a single message passes through, in step order:
the state on entry, after the analysis upsert, and after the document
status sync (a dropped message leaves only the entry state). -/
def messageTrace (now : Nat) (s : DBState)
    (msg : Option AnalysisMessage) : List DBState :=
  match msg with
  | none => [s]
  | some data =>
    match validateMessage data with
    | some _ => [s]
    | none => [s, upsertStep now data s, docSyncStep data (upsertStep now data s)]

/-- The subscription loop over a list of bus messages: every message is
handled, whatever happened to the previous ones. -/
def runConsumer (now : Nat) (s : DBState) :
    List (Option AnalysisMessage) → DBState × List LogEntry
  | [] => (s, [])
  | m :: ms =>
    let r1 := handleAnalysisMessage now s m
    let r2 := runConsumer (now + 1) r1.1 ms
    (r2.1, r1.2 ++ r2.2)

/-- Every store state reached while the loop consumes a message list. -/
def consumerTrace (now : Nat) (s : DBState) :
    List (Option AnalysisMessage) → List DBState
  | [] => [s]
  | m :: ms =>
    messageTrace now s m ++
      consumerTrace (now + 1) (handleAnalysisMessage now s m).1 ms

/-- The cross-collection invariant of C4: every document in status
`analyzed` carries an `analysisId` that an existing AnalysisRecord bears. -/
def docInvariantB (s : DBState) : Bool :=
  s.documents.all (fun d =>
    if d.status = .analyzed then
      match d.analysisId with
      | some aid => s.analyses.any (fun a => a.analysisId = aid)
      | none => false
    else true)

/-- Result of the percentage-change computation with JavaScript number
semantics: finite, +Infinity, -Infinity, or NaN. -/
inductive JsNum where
  | fin (q : ℚ)
  | posInf
  | negInf
  | nan
deriving DecidableEq, Repr

/-- One point pushed into a `metric_trends` series:
`{date, value, analysis_id}`. Dates are logical clocks. -/
structure MetricPoint where
  date : Nat
  value : ℚ
  analysis_id : String
deriving DecidableEq, Repr

/-- The expression `((last - first) / Math.abs(first)) * 100` under IEEE semantics: when
`first = 0` the division by zero yields a signed infinity from the sign
of the numerator, and NaN when the numerator is also zero. -/
def changePercent (first last : ℚ) : JsNum :=
  if first ≠ 0 then .fin ((last - first) / |first| * 100)
  else if 0 < last - first then .posInf
  else if last - first < 0 then .negInf
  else .nan

/-- Comparison `change > c` in JS: +Infinity exceeds everything, NaN compares false. -/
def JsNum.gt : JsNum → ℚ → Bool
  | .fin q, c => c < q
  | .posInf, _ => true
  | .negInf, _ => false
  | .nan, _ => false

/-- Comparison `change < c` in JS: -Infinity is below everything, NaN compares false. -/
def JsNum.lt : JsNum → ℚ → Bool
  | .fin q, c => q < c
  | .posInf, _ => false
  | .negInf, _ => true
  | .nan, _ => false

/-- The guard and change computation of the classification loop of
buildComparisonData: only series with `values.length >= 2` produce a
change, computed between `values[0].value` and the last point's value. -/
def seriesChange (values : List MetricPoint) : Option JsNum :=
  if 2 ≤ values.length then
    match values.head?, values.getLast? with
    | some f, some l => some (changePercent f.value l.value)
    | _, _ => none
  else none

/-- The push `if (change > 5) improving.push({metric, change})`, over the entries
of `metric_trends` in order. -/
def improvingList (trends : List (String × List MetricPoint)) :
    List (String × JsNum) :=
  trends.filterMap (fun mt =>
    match seriesChange mt.2 with
    | some c => if c.gt 5 then some (mt.1, c) else none
    | none => none)

/-- The push `if (change < -5) declining.push({metric, change})`. -/
def decliningList (trends : List (String × List MetricPoint)) :
    List (String × JsNum) :=
  trends.filterMap (fun mt =>
    match seriesChange mt.2 with
    | some c => if c.lt (-5) then some (mt.1, c) else none
    | none => none)

end BixssCA

namespace BixssCA

/-- C1: for every Account and Organization id, `canAccessOrg`
(userSchema.methods.hasCompanyAccess) is: always true for PLATFORM_ADMIN
(SUPER_ADMIN); for PRACTITIONER (CA) true iff the id is in the account's
`invitedOrgs` mirror; for an org-scoped role (COMPANY_ADMIN /
COMPANY_USER) true iff the account's primary org equals the id. -/
theorem canAccessOrg_role_cases (u : User) (o : String) :
    (u.role = .SUPER_ADMIN → hasCompanyAccess u o = true) ∧
    (u.role = .CA → (hasCompanyAccess u o = true ↔ o ∈ u.invitedCompanies)) ∧
    ((u.role = .COMPANY_ADMIN ∨ u.role = .COMPANY_USER) →
      (hasCompanyAccess u o = true ↔ u.company = some o)) := by
  obtain ⟨i, r, c, inv⟩ := u
  cases r with
  | SUPER_ADMIN =>
    refine ⟨?_, ?_, ?_⟩
    · intro _; rfl
    · intro h; cases h
    · intro h; rcases h with h | h <;> cases h
  | CA =>
    refine ⟨?_, ?_, ?_⟩
    · intro h; cases h
    · intro _; simp [hasCompanyAccess, List.any_eq_true]
    · intro h; rcases h with h | h <;> cases h
  | COMPANY_ADMIN =>
    refine ⟨?_, ?_, ?_⟩
    · intro h; cases h
    · intro h; cases h
    · intro _; cases c <;> simp [hasCompanyAccess]
  | COMPANY_USER =>
    refine ⟨?_, ?_, ?_⟩
    · intro h; cases h
    · intro h; cases h
    · intro _; cases c <;> simp [hasCompanyAccess]

/-- Witness for C1 at concrete accounts: a CA invited to "o1" has access,
and a COMPANY_USER of "o2" has access to "o2". -/
theorem canAccessOrg_role_cases_witness :
    hasCompanyAccess ⟨"u1", .CA, none, ["o1", "o3"]⟩ "o1" = true ∧
    hasCompanyAccess ⟨"u2", .COMPANY_USER, some "o2", []⟩ "o2" = true := by
  constructor
  · exact ((canAccessOrg_role_cases ⟨"u1", .CA, none, ["o1", "o3"]⟩ "o1").2.1
      rfl).mpr (by decide)
  · exact ((canAccessOrg_role_cases ⟨"u2", .COMPANY_USER, some "o2", []⟩
      "o2").2.2 (Or.inr rfl)).mpr rfl

/-- C2 counterexample: an ORG_ADMIN whose `company` field points at "o1"
while the Company document "o1" lists them neither as representative nor
in `companyAdmins` (the two authoritative sources disagree) is ALLOWED by
the role-based fast path, not denied: the middleware does not fail closed
and raises no IntegrityError. -/
theorem isCompanyAdmin_mismatch_allows :
    Company.isCompanyAdmin ⟨"o1", "rep1", [], []⟩ "u9" = false ∧
    isCompanyAdminMw [⟨"o1", "rep1", [], []⟩]
      ⟨"u9", .COMPANY_ADMIN, some "o1", []⟩ (some "o1") = .allowed ∧
    isCompanyAdminMw [⟨"o1", "rep1", [], []⟩]
      ⟨"u9", .COMPANY_ADMIN, some "o1", []⟩ (some "o1") ≠ .denied := by
  decide

/-- C2 amended: for an ORG_ADMIN the fast path (`company == companyId`)
and the Company-document membership check are combined as a disjunction:
the middleware answers ALLOWED iff either holds, and otherwise DENIED; a
disagreement between the two is silently resolved towards ALLOWED, and no
distinct IntegrityError outcome exists (the result is always ALLOWED or
DENIED when the Company document is found). -/
theorem isCompanyAdmin_disjunction (companies : List Company) (u : User)
    (o : Company) (cid : String)
    (hrole : u.role = .COMPANY_ADMIN)
    (hfind : companies.find? (fun c => c._id = cid) = some o) :
    (isCompanyAdminMw companies u (some cid) = .allowed ↔
      (u.company = some cid ∨ o.isCompanyAdmin u._id = true)) ∧
    (isCompanyAdminMw companies u (some cid) = .allowed ∨
      isCompanyAdminMw companies u (some cid) = .denied) := by
  have hns : u.role ≠ .SUPER_ADMIN := by rw [hrole]; intro h; cases h
  by_cases h2 : u.company = some cid
  · have hres : isCompanyAdminMw companies u (some cid) = .allowed := by
      simp [isCompanyAdminMw, hns, hrole, h2]
    exact ⟨by simp [hres, h2], Or.inl hres⟩
  · cases hadm : o.isCompanyAdmin u._id with
    | true =>
      have hres : isCompanyAdminMw companies u (some cid) = .allowed := by
        simp [isCompanyAdminMw, hns, hrole, h2, hfind, hadm]
      exact ⟨by simp [hres, hadm], Or.inl hres⟩
    | false =>
      have hres : isCompanyAdminMw companies u (some cid) = .denied := by
        simp [isCompanyAdminMw, hns, hrole, h2, hfind, hadm]
      refine ⟨?_, Or.inr hres⟩
      rw [hres]
      simp [h2, hadm]

/-- Witness for C2's amended theorem: a mismatching ORG_ADMIN (fast path
holds, membership check fails) is ALLOWED. -/
theorem isCompanyAdmin_disjunction_witness :
    isCompanyAdminMw [⟨"o1", "rep1", ["a1"], []⟩]
      ⟨"u9", .COMPANY_ADMIN, some "o1", []⟩ (some "o1") = .allowed :=
  (isCompanyAdmin_disjunction [⟨"o1", "rep1", ["a1"], []⟩]
    ⟨"u9", .COMPANY_ADMIN, some "o1", []⟩ ⟨"o1", "rep1", ["a1"], []⟩ "o1"
    rfl (by decide)).1.mpr (Or.inl rfl)

/-- C9: the representative of an Organization can always administer it,
even when absent from the explicit `companyAdmins` set: whatever the
account's role, the middleware either passes on a fast path or reaches
`companySchema.methods.isCompanyAdmin`, whose first disjunct matches the
representative. -/
theorem representative_is_admin (companies : List Company) (u : User)
    (o : Company) (cid : String)
    (hfind : companies.find? (fun c => c._id = cid) = some o)
    (hrep : o.representative = u._id)
    (habsent : u._id ∉ o.companyAdmins) :
    isCompanyAdminMw companies u (some cid) = .allowed := by
  unfold isCompanyAdminMw
  by_cases h1 : u.role = .SUPER_ADMIN
  · simp [h1]
  · by_cases h2 : u.role = .COMPANY_ADMIN ∧ u.company = some cid
    · simp [h1, h2]
    · simp [h1, h2, hfind, Company.isCompanyAdmin, hrep]

theorem updateFirst_map (p : α → Bool) (f : α → α) (g : α → β) (l : List α)
    (h : ∀ x, p x = true → g (f x) = g x) :
    (updateFirst p f l).map g = l.map g := by
  induction l with
  | nil => rfl
  | cons x xs ih =>
    by_cases hp : p x = true
    · simp [updateFirst, hp, h x hp]
    · simp [updateFirst, hp, ih]

theorem updateFirst_countP (p : α → Bool) (f : α → α) (l : List α)
    (h : ∀ x, p x = true → p (f x) = true) :
    (updateFirst p f l).countP p = l.countP p := by
  induction l with
  | nil => rfl
  | cons x xs ih =>
    by_cases hp : p x = true
    · simp [updateFirst, hp, List.countP_cons, h x hp]
    · simp [updateFirst, hp, List.countP_cons, ih]

theorem updateFirst_exists_mem (p : α → Bool) (f : α → α) (l : List α)
    (h : l.any p = true) : ∃ x, f x ∈ updateFirst p f l := by
  induction l with
  | nil => cases h
  | cons x xs ih =>
    by_cases hp : p x = true
    · exact ⟨x, by simp [updateFirst, hp]⟩
    · have h' : xs.any p = true := by simpa [List.any_cons, hp] using h
      obtain ⟨y, hy⟩ := ih h'
      exact ⟨y, by simp [updateFirst, hp, hy]⟩

theorem updateFirst_idem (p : α → Bool) (f : α → α) (l : List α)
    (hf : ∀ x, p x = true → f (f x) = f x)
    (hp : ∀ x, p x = true → p (f x) = true) :
    updateFirst p f (updateFirst p f l) = updateFirst p f l := by
  induction l with
  | nil => rfl
  | cons x xs ih =>
    by_cases h : p x = true
    · simp [updateFirst, h, hp x h, hf x h]
    · simp [updateFirst, h, ih]

theorem updateFirst_append_not_found (p : α → Bool) (f : α → α)
    (l : List α) (y : α) (h : l.any p = false) :
    updateFirst p f (l ++ [y]) = l ++ updateFirst p f [y] := by
  induction l with
  | nil => rfl
  | cons x xs ih =>
    have hx : p x = false := by
      cases hpx : p x with
      | false => rfl
      | true => simp [List.any_cons, hpx] at h
    have h' : xs.any p = false := by simpa [List.any_cons, hx] using h
    simp [updateFirst, hx, ih h']

theorem docSyncStep_analyses (data : AnalysisMessage) (s : DBState) :
    (docSyncStep data s).analyses = s.analyses := by
  unfold docSyncStep
  split <;> rfl

theorem upsertStep_documents (now : Nat) (data : AnalysisMessage)
    (s : DBState) : (upsertStep now data s).documents = s.documents := rfl

theorem upsertStep_analyses (now : Nat) (data : AnalysisMessage)
    (s : DBState) :
    (upsertStep now data s).analyses =
      upsertAnalysis now (data.analysis_id.getD "")
        (analysisSet data (msgSnaps data s)) s.analyses := rfl

theorem validateMessage_eq_none (data : AnalysisMessage) (aid : String)
    (hid : data.analysis_id = some aid) (haid : aid ≠ "")
    (hdata : jsTruthyVal data.analysis_data = true) :
    validateMessage data = none := by
  simp [validateMessage, hid, jsTruthyStr, haid, hdata]

theorem any_id_iff (l : List AnalysisRecord) (aid : String) :
    l.any (fun a => a.analysisId = aid) = true ↔
      aid ∈ l.map (fun a => a.analysisId) := by
  simp [List.any_eq_true]

theorem upsertAnalysis_map_id (now : Nat) (aid : String)
    (upd : AnalysisRecord → AnalysisRecord)
    (hupd : ∀ r, (upd r).analysisId = aid) (l : List AnalysisRecord) :
    (upsertAnalysis now aid upd l).map (fun a => a.analysisId) =
      (if l.any (fun a => a.analysisId = aid) then
        l.map (fun a => a.analysisId)
      else l.map (fun a => a.analysisId) ++ [aid]) := by
  unfold upsertAnalysis
  by_cases h : l.any (fun a => a.analysisId = aid) = true
  · rw [if_pos h, if_pos h]
    exact updateFirst_map _ _ _ l (fun x hx => by
      rw [hupd x, of_decide_eq_true hx])
  · rw [if_neg h, if_neg h]
    simp [hupd]

theorem upsertStep_mem_id (now : Nat) (data : AnalysisMessage) (s : DBState)
    (aid : String)
    (h : aid ∈ s.analyses.map (fun a => a.analysisId) ∨
      aid = data.analysis_id.getD "") :
    aid ∈ (upsertStep now data s).analyses.map (fun a => a.analysisId) := by
  simp only [upsertStep]
  rw [upsertAnalysis_map_id now (data.analysis_id.getD "")
    (analysisSet data (msgSnaps data s)) (fun r => rfl) s.analyses]
  by_cases hp : s.analyses.any
      (fun a => a.analysisId = data.analysis_id.getD "") = true
  · rw [if_pos hp]
    rcases h with h | rfl
    · exact h
    · exact (any_id_iff _ _).mp hp
  · rw [if_neg hp]
    rcases h with h | rfl
    · exact List.mem_append_left _ h
    · exact List.mem_append_right _ (List.mem_singleton_self _)

theorem docInvariantB_mem (s : DBState) (hinv : docInvariantB s = true)
    (d : DocumentRecord) (hd : d ∈ s.documents) (hst : d.status = .analyzed) :
    ∃ aid, d.analysisId = some aid ∧
      s.analyses.any (fun a => a.analysisId = aid) = true := by
  rw [docInvariantB, List.all_eq_true] at hinv
  have h := hinv d hd
  rw [if_pos hst] at h
  cases haid : d.analysisId with
  | none => rw [haid] at h; simp at h
  | some aid => rw [haid] at h; exact ⟨aid, rfl, h⟩

theorem docInvariantB_of (s : DBState)
    (h : ∀ d ∈ s.documents, d.status = .analyzed →
      ∃ aid, d.analysisId = some aid ∧
        s.analyses.any (fun a => a.analysisId = aid) = true) :
    docInvariantB s = true := by
  rw [docInvariantB, List.all_eq_true]
  intro d hd
  by_cases hst : d.status = .analyzed
  · rw [if_pos hst]
    obtain ⟨aid, haid, hany⟩ := h d hd hst
    rw [haid]
    exact hany
  · rw [if_neg hst]

theorem docInvariantB_upsertStep (now : Nat) (data : AnalysisMessage)
    (s : DBState) (hinv : docInvariantB s = true) :
    docInvariantB (upsertStep now data s) = true := by
  apply docInvariantB_of
  intro d hd hst
  have hd' : d ∈ s.documents := by rwa [upsertStep_documents] at hd
  obtain ⟨aid, haid, hany⟩ := docInvariantB_mem s hinv d hd' hst
  refine ⟨aid, haid, ?_⟩
  rw [any_id_iff]
  exact upsertStep_mem_id now data s aid (Or.inl ((any_id_iff _ _).mp hany))

theorem docInvariantB_docSyncStep (data : AnalysisMessage) (s : DBState)
    (hinv : docInvariantB s = true)
    (haid : s.analyses.any
      (fun a => a.analysisId = data.analysis_id.getD "") = true) :
    docInvariantB (docSyncStep data s) = true := by
  unfold docSyncStep
  by_cases hds : hasDocIds data = true
  · rw [if_pos hds]
    apply docInvariantB_of
    intro d hd hst
    simp only [syncDocuments, List.mem_map] at hd
    obtain ⟨d0, hd0, rfl⟩ := hd
    by_cases hc : (msgDocIds data).contains d0._id = true
    · rw [if_pos hc] at hst ⊢
      exact ⟨data.analysis_id.getD "", rfl, haid⟩
    · rw [if_neg hc] at hst ⊢
      obtain ⟨aid, h1, h2⟩ := docInvariantB_mem s hinv d0 hd0 hst
      exact ⟨aid, h1, h2⟩
  · rw [if_neg hds]
    exact hinv

theorem docSyncStep_documents (data : AnalysisMessage) (s : DBState) :
    (docSyncStep data s).documents =
      (if hasDocIds data then
        syncDocuments (msgDocIds data) (data.analysis_id.getD "") s.documents
      else s.documents) := by
  unfold docSyncStep
  by_cases h : hasDocIds data = true
  · rw [if_pos h, if_pos h]
  · rw [if_neg h, if_neg h]

theorem resolveSnapshots_map (ids : List String)
    (f : DocumentRecord → DocumentRecord)
    (hid : ∀ d, (f d)._id = d._id)
    (hon : ∀ d, (f d).originalName = d.originalName)
    (hfn : ∀ d, (f d).filename = d.filename)
    (hft : ∀ d, (f d).fileType = d.fileType)
    (docs : List DocumentRecord) :
    resolveSnapshots ids (docs.map f) = resolveSnapshots ids docs := by
  induction docs with
  | nil => rfl
  | cons d ds ih =>
    unfold resolveSnapshots at ih ⊢
    simp only [List.map_cons, List.filter_cons, hid]
    by_cases h : ids.contains d._id = true
    · simp only [h, if_true, List.map_cons, hon, hfn, hft, hid]
      rw [ih]
    · simp only [h, if_false]
      exact ih

theorem msgSnaps_docSync (now : Nat) (data : AnalysisMessage) (s : DBState) :
    msgSnaps data (docSyncStep data (upsertStep now data s)) = msgSnaps data s := by
  unfold msgSnaps
  by_cases h : hasDocIds data = true
  · rw [if_pos h, if_pos h, docSyncStep_documents, upsertStep_documents, if_pos h]
    unfold syncDocuments
    exact resolveSnapshots_map _ _ (fun d => by split <;> rfl)
      (fun d => by split <;> rfl) (fun d => by split <;> rfl)
      (fun d => by split <;> rfl) _
  · rw [if_neg h, if_neg h]

theorem syncDocuments_idem (ids : List String) (aid : String)
    (docs : List DocumentRecord) :
    syncDocuments ids aid (syncDocuments ids aid docs) =
      syncDocuments ids aid docs := by
  induction docs with
  | nil => rfl
  | cons d ds ih =>
    unfold syncDocuments at ih ⊢
    simp only [List.map_cons]
    by_cases h : ids.contains d._id = true
    · rw [if_pos h]
      have h2 : ids.contains
          ({ d with
             status := DocStatus.analyzed,
             analysisId := some aid } : DocumentRecord)._id = true := h
      rw [if_pos h2, ih]
    · rw [if_neg h, if_neg h, ih]

theorem upsertAnalysis_map (now : Nat) (aid : String)
    (upd : AnalysisRecord → AnalysisRecord) (g : AnalysisRecord → β)
    (hg : ∀ r, g (upd r) = g r) (l : List AnalysisRecord) :
    (upsertAnalysis now aid upd l).map g =
      (if l.any (fun a => a.analysisId = aid) then l.map g
      else l.map g ++ [g (freshAnalysisRecord now)]) := by
  unfold upsertAnalysis
  by_cases h : l.any (fun a => a.analysisId = aid) = true
  · rw [if_pos h, if_pos h]
    exact updateFirst_map _ _ _ l (fun x _ => hg x)
  · rw [if_neg h, if_neg h]
    simp [hg]

theorem upsertAnalysis_idem (now now' : Nat) (aid : String)
    (upd : AnalysisRecord → AnalysisRecord)
    (hupd : ∀ r, (upd r).analysisId = aid)
    (hidem : ∀ r, upd (upd r) = upd r) (l : List AnalysisRecord) :
    upsertAnalysis now' aid upd (upsertAnalysis now aid upd l) =
      upsertAnalysis now aid upd l := by
  have hpu : ∀ r, decide ((upd r).analysisId = aid) = true := fun r => by
    simp [hupd r]
  by_cases h : l.any (fun a => a.analysisId = aid) = true
  · have hstep : upsertAnalysis now aid upd l =
        updateFirst (fun a => a.analysisId = aid) upd l := by
      unfold upsertAnalysis
      rw [if_pos h]
    have hmap : (updateFirst (fun a => a.analysisId = aid) upd l).map
        (fun a => a.analysisId) = l.map (fun a => a.analysisId) :=
      updateFirst_map _ _ _ l (fun x hx => by rw [hupd x, of_decide_eq_true hx])
    have h2 : (upsertAnalysis now aid upd l).any
        (fun a => a.analysisId = aid) = true := by
      rw [hstep, any_id_iff, hmap, ← any_id_iff]
      exact h
    rw [hstep] at h2 ⊢
    unfold upsertAnalysis
    rw [if_pos h2]
    exact updateFirst_idem _ _ _ (fun x _ => hidem x) (fun x _ => hpu x)
  · have hf : l.any (fun a => a.analysisId = aid) = false := by
      cases hx : l.any (fun a => a.analysisId = aid) with
      | false => rfl
      | true => exact absurd hx h
    have hstep : upsertAnalysis now aid upd l =
        l ++ [upd (freshAnalysisRecord now)] := by
      unfold upsertAnalysis
      rw [if_neg h]
    have h2 : (l ++ [upd (freshAnalysisRecord now)]).any
        (fun a => a.analysisId = aid) = true := by
      simp [List.any_append, hpu]
    rw [hstep]
    unfold upsertAnalysis
    rw [if_pos h2, updateFirst_append_not_found _ _ _ _ hf]
    simp [updateFirst, hpu, hidem]

theorem upsertAnalysis_countP (now : Nat) (aid : String)
    (upd : AnalysisRecord → AnalysisRecord)
    (hupd : ∀ r, (upd r).analysisId = aid) (l : List AnalysisRecord)
    (huniq : l.countP (fun a => a.analysisId = aid) ≤ 1) :
    (upsertAnalysis now aid upd l).countP (fun a => a.analysisId = aid) = 1 := by
  unfold upsertAnalysis
  by_cases h : l.any (fun a => a.analysisId = aid) = true
  · rw [if_pos h]
    rw [updateFirst_countP _ _ _ (fun x _ => by simp [hupd x])]
    have hpos : 0 < l.countP (fun a => a.analysisId = aid) := by
      rw [List.countP_pos_iff]
      obtain ⟨a, ha, hpa⟩ := List.any_eq_true.mp h
      exact ⟨a, ha, hpa⟩
    omega
  · rw [if_neg h]
    rw [List.countP_append]
    have h0 : l.countP (fun a => a.analysisId = aid) = 0 := by
      rw [List.countP_eq_zero]
      intro a ha hpa
      exact h (List.any_eq_true.mpr ⟨a, ha, hpa⟩)
    rw [h0]
    simp [List.countP_cons, hupd]

theorem upsertAnalysis_exists_upd (now : Nat) (aid : String)
    (upd : AnalysisRecord → AnalysisRecord) (l : List AnalysisRecord) :
    ∃ r, upd r ∈ upsertAnalysis now aid upd l := by
  unfold upsertAnalysis
  by_cases h : l.any (fun a => a.analysisId = aid) = true
  · rw [if_pos h]
    exact updateFirst_exists_mem _ _ l h
  · rw [if_neg h]
    exact ⟨freshAnalysisRecord now, by simp⟩

theorem resolveSnapshots_mem (ids : List String) (docs : List DocumentRecord)
    (e : DocSnapshot) (he : e ∈ resolveSnapshots ids docs) :
    e.documentId ∈ ids ∧ ∃ d ∈ docs, d._id = e.documentId := by
  unfold resolveSnapshots at he
  simp only [List.mem_map, List.mem_filter] at he
  obtain ⟨d, ⟨hd, hcont⟩, rfl⟩ := he
  refine ⟨by simpa using hcont, d, hd, rfl⟩

theorem resolveSnapshots_countP (ids : List String)
    (docs : List DocumentRecord) (did : String) (hdid : did ∈ ids) :
    (resolveSnapshots ids docs).countP (fun e => e.documentId = did) =
      docs.countP (fun d => d._id = did) := by
  induction docs with
  | nil => rfl
  | cons d ds ih =>
    unfold resolveSnapshots at ih ⊢
    simp only [List.filter_cons]
    by_cases h : ids.contains d._id = true
    · simp only [h, if_true, List.map_cons, List.countP_cons, ih]
    · have hne : ¬ d._id = did := by
        intro he
        rw [he] at h
        exact h (by simpa using hdid)
      rw [if_neg h, ih, List.countP_cons]
      simp [hne]

theorem countP_id_eq_one (docs : List DocumentRecord) (did : String)
    (hnodup : (docs.map (fun d => d._id)).Nodup)
    (d : DocumentRecord) (hd : d ∈ docs) (hdid : d._id = did) :
    docs.countP (fun x => x._id = did) = 1 := by
  induction docs with
  | nil => cases hd
  | cons x xs ih =>
    rw [List.map_cons, List.nodup_cons] at hnodup
    rcases List.mem_cons.mp hd with rfl | hmem
    · rw [List.countP_cons_of_pos]
      · have h0 : xs.countP (fun y => y._id = did) = 0 := by
          rw [List.countP_eq_zero]
          intro y hy hpy
          exact hnodup.1 (List.mem_map.mpr ⟨y, hy, by
            rw [of_decide_eq_true hpy, ← hdid]⟩)
        rw [h0]
      · simp [hdid]
    · have hx : ¬ (x._id = did) := by
        intro hxe
        exact hnodup.1 (List.mem_map.mpr ⟨d, hmem, by rw [hdid, hxe]⟩)
      rw [List.countP_cons_of_neg]
      · exact ih hnodup.2 hmem
      · simp [hx]

theorem syncDocuments_map_id (ids : List String) (aid : String)
    (docs : List DocumentRecord) :
    (syncDocuments ids aid docs).map (fun d => d._id) =
      docs.map (fun d => d._id) := by
  unfold syncDocuments
  rw [List.map_map]
  apply List.map_congr_left
  intro d _
  by_cases h : ids.contains d._id = true
  · simp only [Function.comp_apply, if_pos h]
  · simp only [Function.comp_apply, if_neg h]

theorem syncDocuments_mem_of_mem (ids : List String) (aid : String)
    (docs : List DocumentRecord) (d : DocumentRecord) (hd : d ∈ docs) :
    (if ids.contains d._id then
      { d with status := DocStatus.analyzed, analysisId := some aid }
    else d) ∈ syncDocuments ids aid docs := by
  unfold syncDocuments
  exact List.mem_map.mpr ⟨d, hd, rfl⟩

theorem docInvariantB_handle (now : Nat) (s : DBState)
    (msg : Option AnalysisMessage) (hinv : docInvariantB s = true) :
    docInvariantB (handleAnalysisMessage now s msg).1 = true := by
  cases msg with
  | none => exact hinv
  | some data =>
    simp only [handleAnalysisMessage, handleParsed]
    cases hval : validateMessage data with
    | some e => exact hinv
    | none =>
      have h1 := docInvariantB_upsertStep now data s hinv
      apply docInvariantB_docSyncStep data _ h1
      rw [any_id_iff]
      exact upsertStep_mem_id now data s _ (Or.inr rfl)

theorem docInvariantB_messageTrace (now : Nat) (s : DBState)
    (msg : Option AnalysisMessage) (hinv : docInvariantB s = true) :
    ∀ s' ∈ messageTrace now s msg, docInvariantB s' = true := by
  intro s' hs'
  cases msg with
  | none => simp only [messageTrace, List.mem_singleton] at hs'; rwa [hs']
  | some data =>
    simp only [messageTrace] at hs'
    cases hval : validateMessage data with
    | some e =>
      rw [hval] at hs'
      simp only [List.mem_singleton] at hs'
      rwa [hs']
    | none =>
      rw [hval] at hs'
      have h1 := docInvariantB_upsertStep now data s hinv
      have h2 : docInvariantB (docSyncStep data (upsertStep now data s)) = true := by
        apply docInvariantB_docSyncStep data _ h1
        rw [any_id_iff]
        exact upsertStep_mem_id now data s _ (Or.inr rfl)
      simp only [List.mem_cons, List.not_mem_nil, or_false] at hs'
      rcases hs' with rfl | rfl | rfl
      · exact hinv
      · exact h1
      · exact h2

/-- Witness for C9: "u1" is the representative of "o1" but not in its
`companyAdmins`; the middleware allows them. -/
theorem representative_is_admin_witness :
    isCompanyAdminMw [⟨"o1", "u1", ["a2"], []⟩]
      ⟨"u1", .COMPANY_USER, some "o1", []⟩ (some "o1") = .allowed :=
  representative_is_admin [⟨"o1", "u1", ["a2"], []⟩]
    ⟨"u1", .COMPANY_USER, some "o1", []⟩ ⟨"o1", "u1", ["a2"], []⟩ "o1"
    (by decide) rfl (by decide)

/-- C5: a message lacking `analysis_id` or lacking `analysis_data` writes
nothing to either collection, produces a log that records the failure and
the message's `analysis_id` field, and the subscription loop proceeds to
the remaining messages exactly as if the bad message had not arrived. -/
theorem malformed_message_no_write (now : Nat) (s : DBState)
    (data : AnalysisMessage) (rest : List (Option AnalysisMessage))
    (hmal : data.analysis_id = none ∨ data.analysis_data = none) :
    (handleParsed now s data).1 = s ∧
    (∃ e, LogEntry.error e ∈ (handleParsed now s data).2) ∧
    LogEntry.received data.analysis_id ∈ (handleParsed now s data).2 ∧
    (runConsumer now s (some data :: rest)).1 = (runConsumer (now + 1) s rest).1 := by
  have hv : validateMessage data ≠ none := by
    intro hnone
    unfold validateMessage at hnone
    rcases hmal with h | h
    · rw [h] at hnone
      simp [jsTruthyStr] at hnone
    · rw [h] at hnone
      split at hnone
      · cases hnone
      · simp [jsTruthyVal] at hnone
  obtain ⟨e, he⟩ := Option.ne_none_iff_exists'.mp hv
  refine ⟨?_, ⟨e, ?_⟩, ?_, ?_⟩ <;>
    simp [handleParsed, he, runConsumer, handleAnalysisMessage]

/-- Witness for C5: a message carrying `analysis_data` but no
`analysis_id` leaves the empty store untouched and the loop over just
that message ends in the same store. -/
theorem malformed_message_no_write_witness :
    (handleParsed 0 ⟨[], []⟩ ⟨none, none, none, none, some (.obj []), none, none⟩).1 =
      (⟨[], []⟩ : DBState) ∧
    (∃ e, LogEntry.error e ∈
      (handleParsed 0 ⟨[], []⟩ ⟨none, none, none, none, some (.obj []), none, none⟩).2) ∧
    LogEntry.received (AnalysisMessage.mk none none none none (some (.obj []))
      none none).analysis_id ∈
      (handleParsed 0 ⟨[], []⟩ ⟨none, none, none, none, some (.obj []), none, none⟩).2 ∧
    (runConsumer 0 ⟨[], []⟩
      (some ⟨none, none, none, none, some (.obj []), none, none⟩ :: [])).1 =
      (runConsumer (0 + 1) ⟨[], []⟩ []).1 :=
  malformed_message_no_write 0 ⟨[], []⟩
    ⟨none, none, none, none, some (.obj []), none, none⟩ [] (Or.inl rfl)

/-- C10: the consumer's upsert never touches `uploadedBy` (the `$set`
document omits it although analysisSchema declares it required): on an
insert the new AnalysisRecord carries no `uploadedBy` reference, and on a
re-ingestion every record keeps the `uploadedBy` it had. -/
theorem upsert_frames_uploadedBy (now : Nat) (s : DBState)
    (data : AnalysisMessage) (aid : String)
    (hid : data.analysis_id = some aid) (haid : aid ≠ "")
    (hdata : jsTruthyVal data.analysis_data = true) :
    ((handleParsed now s data).1).analyses.map (fun a => a.uploadedBy) =
      (if s.analyses.any (fun a => a.analysisId = aid) then
        s.analyses.map (fun a => a.uploadedBy)
      else s.analyses.map (fun a => a.uploadedBy) ++ [none]) := by
  have hval : validateMessage data = none := validateMessage_eq_none data aid hid haid hdata
  simp only [handleParsed, hval]
  rw [docSyncStep_analyses]
  simp only [upsertStep, hid, Option.getD_some]
  unfold upsertAnalysis
  by_cases hpres : s.analyses.any (fun a => a.analysisId = aid) = true
  · simp only [hpres, if_true, if_pos hpres]
    exact updateFirst_map _ _ _ _ (fun x _ => rfl)
  · simp only [hpres, if_false, if_neg hpres]
    simp [freshAnalysisRecord, analysisSet]

/-- C3: ingesting the same valid `(analysis_id, analysis_data)` message
twice is idempotent: the store after the second ingestion equals the
store after the first, the first ingestion leaves exactly one
AnalysisRecord keyed by that `analysis_id` (given the unique index held
before), and the upsert preserves creation timestamps: existing records
keep theirs, and only a fresh insert is stamped with the current clock. -/
theorem ingest_idempotent (now now' : Nat) (s : DBState)
    (data : AnalysisMessage) (aid : String)
    (hid : data.analysis_id = some aid) (haid : aid ≠ "")
    (hdata : jsTruthyVal data.analysis_data = true)
    (huniq : s.analyses.countP (fun a => a.analysisId = aid) ≤ 1) :
    (handleParsed now' (handleParsed now s data).1 data).1 =
      (handleParsed now s data).1 ∧
    ((handleParsed now s data).1).analyses.countP
      (fun a => a.analysisId = aid) = 1 ∧
    ((handleParsed now s data).1).analyses.map (fun a => a.createdAt) =
      (if s.analyses.any (fun a => a.analysisId = aid) then
        s.analyses.map (fun a => a.createdAt)
      else s.analyses.map (fun a => a.createdAt) ++ [now]) := by
  have hval : validateMessage data = none :=
    validateMessage_eq_none data aid hid haid hdata
  have hgd : data.analysis_id.getD "" = aid := by rw [hid]; rfl
  simp only [handleParsed, hval]
  refine ⟨?_, ?_, ?_⟩
  · apply DBState.ext
    · rw [docSyncStep_analyses, docSyncStep_analyses,
        upsertStep_analyses now' data (docSyncStep data (upsertStep now data s)),
        msgSnaps_docSync now data s,
        docSyncStep_analyses data (upsertStep now data s),
        upsertStep_analyses now data s, hgd]
      exact upsertAnalysis_idem now now' aid
        (analysisSet data (msgSnaps data s)) (fun r => hgd) (fun r => rfl)
        s.analyses
    · rw [docSyncStep_documents, upsertStep_documents, docSyncStep_documents,
        upsertStep_documents]
      by_cases h : hasDocIds data = true
      · rw [if_pos h, if_pos h]
        exact syncDocuments_idem _ _ _
      · rw [if_neg h, if_neg h]
  · rw [docSyncStep_analyses, upsertStep_analyses, hgd]
    exact upsertAnalysis_countP now aid (analysisSet data (msgSnaps data s))
      (fun r => hgd) s.analyses huniq
  · rw [docSyncStep_analyses, upsertStep_analyses, hgd]
    rw [upsertAnalysis_map now aid (analysisSet data (msgSnaps data s))
      (fun a => a.createdAt) (fun r => rfl) s.analyses]
    rfl

/-- Witness for C3: ingesting the "A1" message into a one-document store
at clock 5, then again at clock 9, leaves the state of the first
ingestion; exactly one "A1" record exists, created at clock 5. -/
theorem ingest_idempotent_witness :
    (handleParsed 9
      (handleParsed 5 ⟨[], [⟨"D1", "f1", "o1", "pdf", some "c1", .uploaded, none⟩]⟩
        ⟨none, some "A1", none, none, some (.obj []), some ["D1"], none⟩).1
      ⟨none, some "A1", none, none, some (.obj []), some ["D1"], none⟩).1 =
      (handleParsed 5 ⟨[], [⟨"D1", "f1", "o1", "pdf", some "c1", .uploaded, none⟩]⟩
        ⟨none, some "A1", none, none, some (.obj []), some ["D1"], none⟩).1 ∧
    ((handleParsed 5 ⟨[], [⟨"D1", "f1", "o1", "pdf", some "c1", .uploaded, none⟩]⟩
        ⟨none, some "A1", none, none, some (.obj []), some ["D1"], none⟩).1).analyses.countP
      (fun a => a.analysisId = "A1") = 1 ∧
    ((handleParsed 5 ⟨[], [⟨"D1", "f1", "o1", "pdf", some "c1", .uploaded, none⟩]⟩
        ⟨none, some "A1", none, none, some (.obj []), some ["D1"], none⟩).1).analyses.map
      (fun a => a.createdAt) =
      (if ([] : List AnalysisRecord).any (fun a => a.analysisId = "A1") then
        ([] : List AnalysisRecord).map (fun a => a.createdAt)
      else ([] : List AnalysisRecord).map (fun a => a.createdAt) ++ [5]) :=
  ingest_idempotent 5 9 ⟨[], [⟨"D1", "f1", "o1", "pdf", some "c1", .uploaded, none⟩]⟩
    ⟨none, some "A1", none, none, some (.obj []), some ["D1"], none⟩ "A1"
    rfl (by decide) rfl (by decide)

/-- C4: along the consumer's per-message step sequence (validate, then
upsert the AnalysisRecord, then mark documents analyzed) and across any
sequence of messages, a store satisfying the invariant keeps satisfying
it at every intermediate state: no reachable state has a document in
status `analyzed` whose referenced AnalysisRecord is absent, because the
status transition is performed strictly after the upsert for that
`analysis_id`. -/
theorem analyzed_implies_analysis_exists (msgs : List (Option AnalysisMessage)) :
    ∀ (now : Nat) (s : DBState), docInvariantB s = true →
      ∀ s' ∈ consumerTrace now s msgs, docInvariantB s' = true := by
  induction msgs with
  | nil =>
    intro now s hinv s' hs'
    simp only [consumerTrace, List.mem_singleton] at hs'
    rwa [hs']
  | cons m ms ih =>
    intro now s hinv s' hs'
    simp only [consumerTrace, List.mem_append] at hs'
    rcases hs' with h | h
    · exact docInvariantB_messageTrace now s m hinv s' h
    · exact ih (now + 1) _ (docInvariantB_handle now s m hinv) s' h

/-- Witness for C4: starting from a store with one uploaded document and
no analyses, the state after fully ingesting a message referencing "D1"
still satisfies the invariant. -/
theorem analyzed_implies_analysis_exists_witness :
    docInvariantB (docSyncStep
      ⟨none, some "A1", none, none, some (.obj []), some ["D1"], none⟩
      (upsertStep 0 ⟨none, some "A1", none, none, some (.obj []), some ["D1"], none⟩
        ⟨[], [⟨"D1", "f1", "o1", "pdf", some "c1", .uploaded, none⟩]⟩)) = true :=
  analyzed_implies_analysis_exists
    [some ⟨none, some "A1", none, none, some (.obj []), some ["D1"], none⟩] 0
    ⟨[], [⟨"D1", "f1", "o1", "pdf", some "c1", .uploaded, none⟩]⟩ (by decide) _
    (by
      have hv : validateMessage
          ⟨none, some "A1", none, none, some (.obj []), some ["D1"], none⟩ = none := by
        decide
      simp only [consumerTrace, messageTrace, hv]
      simp [List.mem_append])

/-- C8: for a valid message carrying a non-empty `document_ids` list, the
upserted record's `documents` snapshot holds exactly one entry per id
that matches an existing DocumentRecord; ids matching no record are
silently excluded both from the snapshot and from the `analyzed`
transition (the document collection's ids are unchanged), documents that
do match are set to `analyzed` and stamped with the `analysis_id`, and no
error is logged. -/
theorem document_snapshot_exact (now : Nat) (s : DBState)
    (data : AnalysisMessage) (aid : String) (ids : List String)
    (hid : data.analysis_id = some aid) (haid : aid ≠ "")
    (hdata : jsTruthyVal data.analysis_data = true)
    (hids : data.document_ids = some ids) (hne : 0 < ids.length)
    (hnodup : (s.documents.map (fun d => d._id)).Nodup) :
    (∃ a ∈ ((handleParsed now s data).1).analyses, a.analysisId = aid ∧
      (∀ e ∈ a.documents, e.documentId ∈ ids ∧
        ∃ d ∈ s.documents, d._id = e.documentId) ∧
      (∀ did ∈ ids, ∀ d ∈ s.documents, d._id = did →
        a.documents.countP (fun e => e.documentId = did) = 1)) ∧
    ((handleParsed now s data).1).documents.map (fun d => d._id) =
      s.documents.map (fun d => d._id) ∧
    (∀ d ∈ s.documents, d._id ∈ ids →
      ∃ d2 ∈ ((handleParsed now s data).1).documents,
        d2._id = d._id ∧ d2.status = .analyzed ∧ d2.analysisId = some aid) ∧
    (∀ d ∈ s.documents, d._id ∉ ids →
      d ∈ ((handleParsed now s data).1).documents) ∧
    (∀ e, LogEntry.error e ∉ (handleParsed now s data).2) := by
  have hval : validateMessage data = none :=
    validateMessage_eq_none data aid hid haid hdata
  have hgd : data.analysis_id.getD "" = aid := by rw [hid]; rfl
  have hdocs : hasDocIds data = true := by simp [hasDocIds, hids, hne]
  have hmids : msgDocIds data = ids := by simp [msgDocIds, hids, hne]
  have hsnap : msgSnaps data s = resolveSnapshots ids s.documents := by
    rw [msgSnaps, if_pos hdocs, hmids]
  have hDdocs : ((handleParsed now s data).1).documents =
      syncDocuments ids aid s.documents := by
    simp only [handleParsed, hval]
    rw [docSyncStep_documents, upsertStep_documents, if_pos hdocs, hmids, hgd]
  refine ⟨?_, ?_, ?_, ?_, ?_⟩
  · simp only [handleParsed, hval]
    rw [docSyncStep_analyses, upsertStep_analyses, hgd]
    obtain ⟨r, hr⟩ := upsertAnalysis_exists_upd now aid
      (analysisSet data (msgSnaps data s)) s.analyses
    refine ⟨analysisSet data (msgSnaps data s) r, hr, hgd, ?_, ?_⟩
    · intro e he
      have he' : e ∈ resolveSnapshots ids s.documents := by
        rw [← hsnap]
        exact he
      exact resolveSnapshots_mem ids s.documents e he'
    · intro did hdid d hd hdide
      have hdoc : (analysisSet data (msgSnaps data s) r).documents =
          resolveSnapshots ids s.documents := hsnap
      rw [hdoc, resolveSnapshots_countP ids s.documents did hdid]
      exact countP_id_eq_one s.documents did hnodup d hd hdide
  · rw [hDdocs]
    exact syncDocuments_map_id ids aid s.documents
  · intro d hd hdin
    rw [hDdocs]
    have hm := syncDocuments_mem_of_mem ids aid s.documents d hd
    rw [if_pos (by simpa using hdin)] at hm
    exact ⟨_, hm, rfl, rfl, rfl⟩
  · intro d hd hdnin
    rw [hDdocs]
    have hm := syncDocuments_mem_of_mem ids aid s.documents d hd
    rw [if_neg (by simpa using hdnin)] at hm
    exact hm
  · intro e
    simp only [handleParsed, hval]
    simp

/-- Witness for C8: the spec's scenario — message "A1" referencing
["D1", "D2"] while only "D1" exists: the snapshot holds exactly the "D1"
entry, "D1" becomes analyzed, "D2" creates nothing, no error logged. -/
theorem document_snapshot_exact_witness :
    ((handleParsed 7 ⟨[], [⟨"D1", "f1", "o1", "pdf", some "c1", .uploaded, none⟩]⟩
      ⟨none, some "A1", none, none, some (.obj []), some ["D1", "D2"], none⟩).1).documents.map
      (fun d => d._id) =
      ([⟨"D1", "f1", "o1", "pdf", some "c1", .uploaded, none⟩] :
        List DocumentRecord).map (fun d => d._id) :=
  (document_snapshot_exact 7
    ⟨[], [⟨"D1", "f1", "o1", "pdf", some "c1", .uploaded, none⟩]⟩
    ⟨none, some "A1", none, none, some (.obj []), some ["D1", "D2"], none⟩
    "A1" ["D1", "D2"] rfl (by decide) rfl rfl (by decide) (by decide)).2.1

/-- Witness for C10: ingesting "A1" into a store holding an unrelated
record keeps that record's `uploadedBy` and appends a record with none. -/
theorem upsert_frames_uploadedBy_witness :
    ((handleParsed 3
        ⟨[{ analysisId := "B7", company := none, uploadedBy := some "u5",
            documents := [], documentCount := 0, totalPagesProcessed := 0,
            consolidatedData := .obj [], healthAnalysis := .obj [],
            status := .completed, jobId := none, error := none,
            createdAt := 1 }], []⟩
        ⟨none, some "A1", none, none, some (.obj []), none, none⟩).1).analyses.map
        (fun a => a.uploadedBy) = [some "u5", none] := by
  have h := upsert_frames_uploadedBy 3
    ⟨[{ analysisId := "B7", company := none, uploadedBy := some "u5",
        documents := [], documentCount := 0, totalPagesProcessed := 0,
        consolidatedData := .obj [], healthAnalysis := .obj [],
        status := .completed, jobId := none, error := none,
        createdAt := 1 }], []⟩
    ⟨none, some "A1", none, none, some (.obj []), none, none⟩ "A1"
    rfl (by decide) rfl
  simpa using h

/-- C7: for a metric series with at least 2 points whose first value is
nonzero, the loop computes `change = (last - first) / abs(first) * 100`
between the first and last point, puts the metric on the improving list
iff `change > 5` and on the declining list iff `change < -5` (otherwise
it is on neither list), and treats each `metric_trends` entry
independently of the others. -/
theorem metric_classification (m : String) (vs : List MetricPoint)
    (f l : MetricPoint) (hlen : 2 ≤ vs.length)
    (hf : vs.head? = some f) (hl : vs.getLast? = some l)
    (h0 : f.value ≠ 0) :
    seriesChange vs = some (.fin ((l.value - f.value) / |f.value| * 100)) ∧
    improvingList [(m, vs)] =
      (if 5 < (l.value - f.value) / |f.value| * 100 then
        [(m, JsNum.fin ((l.value - f.value) / |f.value| * 100))]
      else []) ∧
    decliningList [(m, vs)] =
      (if (l.value - f.value) / |f.value| * 100 < -5 then
        [(m, JsNum.fin ((l.value - f.value) / |f.value| * 100))]
      else []) ∧
    (∀ xs ys, improvingList (xs ++ ys) = improvingList xs ++ improvingList ys) ∧
    (∀ xs ys, decliningList (xs ++ ys) = decliningList xs ++ decliningList ys) := by
  have hch0 : seriesChange vs = some (changePercent f.value l.value) := by
    unfold seriesChange
    rw [if_pos hlen, hf, hl]
  have hch : seriesChange vs =
      some (.fin ((l.value - f.value) / |f.value| * 100)) := by
    rw [hch0]
    unfold changePercent
    rw [if_pos h0]
  refine ⟨hch, ?_, ?_, ?_, ?_⟩
  · by_cases h5 : 5 < (l.value - f.value) / |f.value| * 100
    · simp [improvingList, hch, JsNum.gt, h5]
    · simp [improvingList, hch, JsNum.gt, h5]
  · by_cases h5 : (l.value - f.value) / |f.value| * 100 < -5
    · simp [decliningList, hch, JsNum.lt, h5]
    · simp [decliningList, hch, JsNum.lt, h5]
  · intro xs ys
    simp [improvingList, List.filterMap_append]
  · intro xs ys
    simp [decliningList, List.filterMap_append]

/-- Witness for C7: the spec's three instances — 100 to 108 (change 8) is
improving, 100 to 104 (change 4) is on neither list, 100 to 94
(change -6) is declining. -/
theorem metric_classification_witness :
    improvingList [("current_ratio", [⟨0, 100, "a1"⟩, ⟨1, 108, "a2"⟩])] =
      [("current_ratio", JsNum.fin 8)] ∧
    decliningList [("current_ratio", [⟨0, 100, "a1"⟩, ⟨1, 108, "a2"⟩])] = [] ∧
    improvingList [("gross_margin", [⟨0, 100, "a1"⟩, ⟨1, 104, "a2"⟩])] = [] ∧
    decliningList [("gross_margin", [⟨0, 100, "a1"⟩, ⟨1, 104, "a2"⟩])] = [] ∧
    improvingList [("net_margin", [⟨0, 100, "a1"⟩, ⟨1, 94, "a2"⟩])] = [] ∧
    decliningList [("net_margin", [⟨0, 100, "a1"⟩, ⟨1, 94, "a2"⟩])] =
      [("net_margin", JsNum.fin (-6))] := by
  have h1 := metric_classification "current_ratio"
    [⟨0, 100, "a1"⟩, ⟨1, 108, "a2"⟩] ⟨0, 100, "a1"⟩ ⟨1, 108, "a2"⟩
    (by decide) rfl rfl (by norm_num)
  have h2 := metric_classification "gross_margin"
    [⟨0, 100, "a1"⟩, ⟨1, 104, "a2"⟩] ⟨0, 100, "a1"⟩ ⟨1, 104, "a2"⟩
    (by decide) rfl rfl (by norm_num)
  have h3 := metric_classification "net_margin"
    [⟨0, 100, "a1"⟩, ⟨1, 94, "a2"⟩] ⟨0, 100, "a1"⟩ ⟨1, 94, "a2"⟩
    (by decide) rfl rfl (by norm_num)
  refine ⟨?_, ?_, ?_, ?_, ?_, ?_⟩
  · rw [h1.2.1]
    norm_num [abs_of_pos]
  · rw [h1.2.2.1]
    norm_num [abs_of_pos]
  · rw [h2.2.1]
    norm_num [abs_of_pos]
  · rw [h2.2.2.1]
    norm_num [abs_of_pos]
  · rw [h3.2.1]
    norm_num [abs_of_pos]
  · rw [h3.2.2.1]
    norm_num [abs_of_pos]

/-- C6 counterexample: no positive threshold ε exists under which every
metric series whose first value lies within ε of zero is excluded from
the improving/declining lists: the series 0 → 1 has first value 0
(within any ε > 0) yet is classified improving, since the division
yields +Infinity and `Infinity > 5` holds. -/
theorem no_epsilon_exclusion :
    ¬ ∃ ε : ℚ, 0 < ε ∧
      ∀ (m : String) (vs : List MetricPoint) (f : MetricPoint),
        2 ≤ vs.length → vs.head? = some f → |f.value| < ε →
        improvingList [(m, vs)] = [] ∧ decliningList [(m, vs)] = [] := by
  rintro ⟨ε, hε, h⟩
  have h01 := h "m" [⟨0, 0, "a1"⟩, ⟨1, 1, "a2"⟩] ⟨0, 0, "a1"⟩
    (by decide) rfl (by simpa using hε)
  have hcp : changePercent (0 : ℚ) 1 = JsNum.posInf := by
    unfold changePercent
    norm_num
  have hch : seriesChange [⟨0, 0, "a1"⟩, ⟨1, 1, "a2"⟩] = some JsNum.posInf := by
    unfold seriesChange
    rw [if_pos (by decide)]
    exact congrArg some hcp
  have himp : improvingList [("m", [⟨0, 0, "a1"⟩, ⟨1, 1, "a2"⟩])] =
      [("m", JsNum.posInf)] := by
    simp [improvingList, hch, JsNum.gt]
  rw [h01.1] at himp
  simp at himp

/-- C6 amended: the classification loop applies no near-zero threshold: a
metric series with at least 2 points whose first value is exactly 0 is
classified improving (+Infinity) when its last value is positive and
declining (-Infinity) when negative; it is excluded from both lists only
when the last value is 0 as well (0/0 is NaN, which compares false). -/
theorem zero_first_classification (m : String) (vs : List MetricPoint)
    (f l : MetricPoint) (hlen : 2 ≤ vs.length)
    (hf : vs.head? = some f) (hl : vs.getLast? = some l)
    (h0 : f.value = 0) :
    improvingList [(m, vs)] =
      (if 0 < l.value then [(m, JsNum.posInf)] else []) ∧
    decliningList [(m, vs)] =
      (if l.value < 0 then [(m, JsNum.negInf)] else []) := by
  have hch : seriesChange vs = some (changePercent f.value l.value) := by
    unfold seriesChange
    rw [if_pos hlen, hf, hl]
  have hcp : changePercent f.value l.value =
      (if 0 < l.value then JsNum.posInf
      else if l.value < 0 then JsNum.negInf else JsNum.nan) := by
    unfold changePercent
    rw [h0]
    simp
  constructor
  · by_cases hp : 0 < l.value
    · simp [improvingList, hch, hcp, hp, JsNum.gt]
    · by_cases hn : l.value < 0 <;>
        simp [improvingList, hch, hcp, hp, hn, JsNum.gt]
  · by_cases hp : 0 < l.value
    · simp [decliningList, hch, hcp, hp, JsNum.lt, asymm hp]
    · by_cases hn : l.value < 0 <;>
        simp [decliningList, hch, hcp, hp, hn, JsNum.lt]

/-- Witness for C6's amended theorem: first value 0 with last value -3 is
declining and not improving. -/
theorem zero_first_classification_witness :
    improvingList [("m", [⟨0, 0, "a1"⟩, ⟨1, -3, "a2"⟩])] = [] ∧
    decliningList [("m", [⟨0, 0, "a1"⟩, ⟨1, -3, "a2"⟩])] =
      [("m", JsNum.negInf)] := by
  have h := zero_first_classification "m" [⟨0, 0, "a1"⟩, ⟨1, -3, "a2"⟩]
    ⟨0, 0, "a1"⟩ ⟨1, -3, "a2"⟩ (by decide) rfl rfl rfl
  constructor
  · rw [h.1]
    norm_num
  · rw [h.2]
    norm_num

end BixssCA
